import Mathlib

/-!
Shallow embedding of `src/app.js` of the scheduling-board web client
(`1071-shift-web`), covering the schedule aggregation performed in
`renderWeekTable`, the form submit handlers (`setupEmployeeForm`,
`setupShiftForm`), and the week loader (`loadWeekSchedule`).

JavaScript values that matter to the embedded code are modelled explicitly:
the `employee` field of a shift record ranges over a JS value that is either
an embedded employee object or one of the falsy primitive values
(`undefined`, `null`, `false`, `0`, `""`), and the grouping object
`byEmployee` is modelled as an insertion-ordered association list together
with the ECMAScript own-property enumeration order (array-index keys first,
in ascending numeric order, then the remaining string keys in insertion
order), which is what `Object.entries` observes.

Property reads on a plain object traverse the prototype chain, so the
existence test `if (!byEmployee[empName])` is truthy for a key naming an
`Object.prototype` member (`"toString"`, `"valueOf"`, `"__proto__"`, …)
even when no own row exists: no own row is then ever created and the bucket
write lands on the inherited object, invisible to `Object.entries`.
`jsGroupStep`/`jsGroupRows` model the grouping loop with these hazards
accounted for; `outerInsert`/`innerInsert` capture the own-property
discipline the loop follows on keys that do not hit the prototype chain. -/

namespace ShiftWeb

/-- An employee record as returned by the backend and embedded (denormalized)
into a shift's `employee` field.  Only the fields read by `app.js` appear. -/
structure Employee where
  id : Int
  full_name : String
  role : String
deriving Repr, DecidableEq

/-- The JS value stored in a shift record's `employee` field: either an
embedded employee object, or one of the falsy primitive values.  (Per the
data model the server sends an object or `null`/absent; the extra falsy
constructors let us state what the code's truthiness test does on every
falsy value.) -/
inductive EmpField where
  | jsUndefined
  | jsNull
  | jsFalse
  | jsZero
  | jsEmptyString
  | emp (e : Employee)
deriving Repr, DecidableEq

/-- ECMAScript `ToBoolean` on the values an `EmpField` can hold:
`undefined`, `null`, `false`, `0` and `""` are falsy; an object is truthy. -/
def jsTruthy : EmpField → Bool
  | .emp _ => true
  | _ => false

/-- A shift record as consumed by `renderWeekTable` (`app.js`): fields
`date`, `start_time`, `end_time`, `position`, `employee`. -/
structure Shift where
  id : Int
  date : String
  start_time : String
  end_time : String
  position : String
  employee : EmpField
deriving Repr, DecidableEq

/-- The open-shift sentinel row label used at `app.js:154`. -/
def openShiftKey : String := "(Açık shift)"

/-- `app.js:154`: `const empName = s.employee ? s.employee.full_name : "(Açık shift)"`.
The conditional tests JS truthiness of the `employee` field. -/
def empKeyOf (f : EmpField) : String :=
  match f with
  | .emp e => e.full_name
  | _ => openShiftKey

/-- The inner grouping object `byEmployee[empName]`: date string → list of
shifts, as an insertion-ordered association list. -/
abbrev Buckets := List (String × List Shift)

/-- The outer grouping object `byEmployee`: employee key → inner object,
as an insertion-ordered association list. -/
abbrev Rows := List (String × Buckets)

/-- `app.js:156-157`: `byEmployee[empName][s.date] = byEmployee[empName][s.date] || [];
byEmployee[empName][s.date].push(s)` — append `s` to the bucket at key `d`,
creating the property (at the end, in insertion order) if absent.  This is
the write's own-property effect when the date key does not hit the
prototype chain; a date naming an `Object.prototype` member instead reads a
truthy inherited function, which `||` keeps and `.push` then throws on —
that case is handled in `jsGroupStep`. -/
def innerInsert (b : Buckets) (d : String) (s : Shift) : Buckets :=
  match b with
  | [] => [(d, [s])]
  | (d', l) :: rest =>
      if d' = d then (d', l ++ [s]) :: rest else (d', l) :: innerInsert rest d s

/-- `app.js:155-157`: `if (!byEmployee[empName]) byEmployee[empName] = {}`
followed by the inner insertion — insert `s` into the bucket at
(employee key `k`, date `d`), creating the row property if absent.  This is
the loop body's own-property effect for a key that does not hit the
prototype chain; the guard's read traverses the prototype chain, so for an
`Object.prototype`-named key no own row is created at all — `jsGroupStep`
wraps this function with those cases. -/
def outerInsert (m : Rows) (k d : String) (s : Shift) : Rows :=
  match m with
  | [] => [(k, innerInsert [] d s)]
  | (k', b) :: rest =>
      if k' = k then (k', innerInsert b d s) :: rest
      else (k', b) :: outerInsert rest k d s

/-- The grouping loop of `renderWeekTable` (`app.js:153-159`), restricted to
the `byEmployee` object it builds. -/
def aggRows (shifts : List Shift) : Rows :=
  shifts.foldl (fun m s => outerInsert m (empKeyOf s.employee) s.date s) []

/-- Property read on the inner object (`shiftsByDate[d]` at `app.js:189`,
with `|| []` for an absent property). -/
def innerLookup : Buckets → String → List Shift
  | [], _ => []
  | (d', l) :: rest, d => if d' = d then l else innerLookup rest d

/-- Read of the bucket at (employee key `k`, date `d`) in the grouping
object; absent properties read as the empty bucket. -/
def bucketOf : Rows → String → String → List Shift
  | [], _, _ => []
  | (k', b) :: rest, k, d => if k' = k then innerLookup b d else bucketOf rest k d

/-- All shifts stored in an inner object, in storage order. -/
def bucketsShifts : Buckets → List Shift
  | [] => []
  | (_, l) :: rest => l ++ bucketsShifts rest

/-- All shifts stored in the grouping object, in storage order. -/
def rowsShifts : Rows → List Shift
  | [] => []
  | (_, b) :: rest => bucketsShifts b ++ rowsShifts rest

/-- `Set.prototype.add` on a set represented as its insertion-ordered list
of distinct elements (`datesSet.add(s.date)`, `app.js:158`). -/
def setAdd (l : List String) (d : String) : List String :=
  if d ∈ l then l else l ++ [d]

/-- The contents of `datesSet` after the grouping loop: the distinct `date`
values of the input, in first-appearance order (`app.js:151,158`). -/
def datesInOrder (shifts : List Shift) : List String :=
  shifts.foldl (fun acc s => setAdd acc s.date) []

/-- From the spec's words (§3, §8): the expected row order — employee keys
in order of first appearance in the source list.  Declared to compare the
row order the code produces against the spec's row-order sentence. -/
def firstSeenKeys (shifts : List Shift) : List String :=
  shifts.foldl (fun acc s => setAdd acc (empKeyOf s.employee)) []

/-- `app.js:161`: `Array.from(datesSet).sort()`.  The default comparator
sorts strings lexicographically; on the distinct elements of a set the
sorted permutation is unique, so any sorted permutation models it.  We use
insertion sort under the lexicographic order on `String`. -/
def columnDates (shifts : List Shift) : List String :=
  (datesInOrder shifts).insertionSort (· ≤ ·)

/-- Value of a string of decimal digits, read as a base-10 numeral. -/
def listDecimal (l : List Char) : Nat :=
  l.foldl (fun n c => n * 10 + (c.toNat - 48)) 0

/-- Whether a string is a canonical array-index property key in ECMAScript:
the canonical decimal numeral (digits only, no leading zero except `"0"`
itself) of an integer `n` with `0 ≤ n < 2^32 - 1`.  Such keys are enumerated
before all other string keys, in ascending numeric order
(`OrdinaryOwnPropertyKeys`). -/
def isArrayIndexKey (s : String) : Bool :=
  match s.data with
  | [] => false
  | c :: cs =>
      (c :: cs).all Char.isDigit && (c != '0' || cs.isEmpty) &&
      listDecimal (c :: cs) < 4294967295

/-- Numeric value of an array-index key (only used on index keys). -/
def indexKeyVal (p : String × Buckets) : Nat :=
  listDecimal p.1.data

/-- `Object.entries(byEmployee)` (`app.js:181`): array-index keys first in
ascending numeric order, then the remaining string keys in insertion order. -/
def jsEntries (m : Rows) : Rows :=
  (m.filter (fun p => isArrayIndexKey p.1)).insertionSort
      (fun a b => indexKeyVal a ≤ indexKeyVal b)
    ++ m.filter (fun p => !isArrayIndexKey p.1)

/-- What `renderWeekTable` leaves in the schedule container: either the
"no shifts" text (`app.js:145-148`) or a table determined by the sorted
column dates and the enumerated rows. -/
inductive RenderedSchedule where
  | message (text : String)
  | table (dates : List String) (rows : Rows)
deriving Repr, DecidableEq

/-- `renderWeekTable(shifts)` (`app.js:141-203`) as a function from the
input list to the rendered container content. -/
def renderWeekTable (shifts : List Shift) : RenderedSchedule :=
  if shifts.length = 0 then .message "Bu hafta için kayıtlı vardiya yok."
  else .table (columnDates shifts) (jsEntries (aggRows shifts))

/-! ### The grouping loop with the prototype chain taken into account -/

/-- The own property names of `Object.prototype`: reading any of these keys
on a fresh plain object traverses the prototype chain and yields a truthy
inherited value (a built-in function, or `Object.prototype` itself for
`"__proto__"`). -/
def protoProperty (s : String) : Bool :=
  ["constructor", "hasOwnProperty", "isPrototypeOf", "propertyIsEnumerable",
   "toLocaleString", "toString", "valueOf", "__proto__", "__defineGetter__",
   "__defineSetter__", "__lookupGetter__", "__lookupSetter__"].contains s

/-- Property names whose read or write on a plain built-in function object
is hazardous: the `Object.prototype` names plus `Function.prototype` members
and the function's own non-writable `length`/`name`. -/
def funcHazard (s : String) : Bool :=
  protoProperty s ||
  ["apply", "bind", "call", "caller", "arguments", "length", "name"].contains s

/-- One iteration of the grouping loop (`app.js:153-159`) with the
prototype chain of the plain objects taken into account.  The guard
`if (!byEmployee[empName])` (`app.js:155`) reads through the prototype
chain; an own row (which shadows the prototype) or an
`Object.prototype`-named key makes the read truthy, and only a falsy read
creates an own row.

* Own row present: the bucket write appends as usual, unless the date key
  names an `Object.prototype` member — then the inner read yields a truthy
  inherited function, `|| []` keeps it, and `.push` throws a `TypeError`
  (modelled `none`).
* No own row and the key names an `Object.prototype` member: no row is
  created and the write of `app.js:156-157` lands on the inherited object,
  invisible to `Object.entries` — the own-property state is unchanged and
  the shift is dropped from the view (modelled `some m`).  Exceptions that
  leave the modelled state space, yielding `none`: the key `"__proto__"`
  (the write would mutate `Object.prototype` itself, polluting every later
  plain-object read), and a date key in `funcHazard` (the write target is a
  built-in function, where such a read yields a truthy or non-writable
  value and `.push` throws).
* Otherwise a fresh own row is created and the write appends, with the
  same `Object.prototype`-named-date crash as in the first case. -/
def jsGroupStep (m : Rows) (s : Shift) : Option Rows :=
  if (m.map Prod.fst).contains (empKeyOf s.employee) then
    if protoProperty s.date then none
    else some (outerInsert m (empKeyOf s.employee) s.date s)
  else if protoProperty (empKeyOf s.employee) then
    if empKeyOf s.employee == "__proto__" then none
    else if funcHazard s.date then none
    else some m
  else
    if protoProperty s.date then none
    else some (outerInsert m (empKeyOf s.employee) s.date s)

/-- The grouping loop of `renderWeekTable` run shift by shift under
`jsGroupStep`, aborting (`none`) when the loop throws or leaves the
modelled state space. -/
def jsGroupRowsAux : Rows → List Shift → Option Rows
  | m, [] => some m
  | m, s :: rest =>
      match jsGroupStep m s with
      | none => none
      | some m' => jsGroupRowsAux m' rest

/-- The own rows of `byEmployee` after the grouping loop of
`renderWeekTable` (`app.js:150-159`), prototype chain included: exactly
these rows are observed by `Object.entries` at `app.js:181`. -/
def jsGroupRows (shifts : List Shift) : Option Rows :=
  jsGroupRowsAux [] shifts

/-! ### View synchronizer: week loading (`loadWeekSchedule`, `app.js:130-139`) -/

/-- Mutable page state touched by the handlers: the `week-date` input's value
(`""` when unset) and the current content of the schedule container
(`none` before anything has been rendered). -/
structure AppState where
  weekDateField : String
  view : Option RenderedSchedule
deriving Repr, DecidableEq

/-- How the `fetch` inside `loadWeekSchedule` turned out: the promise
rejected (network failure, with the browser's error message), the response
had a non-success status (`!res.ok`), or it succeeded with a shift list. -/
inductive WeekFetchOutcome where
  | networkError (msg : String)
  | httpError
  | ok (shifts : List Shift)
deriving Repr, DecidableEq

/-- Completion of one `loadWeekSchedule` call (`app.js:130-139`): on success
the response is rendered into the container, unconditionally overwriting
whatever was there (no request token or fencing compares it to the latest
request); on failure the container is left as it was and the error message
is alerted.  Returns the new state and the alert produced, if any. -/
def completeLoadWeek (st : AppState) (outcome : WeekFetchOutcome) :
    AppState × Option String :=
  match outcome with
  | .networkError m => (st, some m)
  | .httpError => (st, some "Haftalık program alınamadı")
  | .ok shifts => ({ st with view := some (renderWeekTable shifts) }, none)

/-! ### Form intake handlers (`setupEmployeeForm`, `setupShiftForm`) -/

/-- ECMAScript `String.prototype.trim` strips `WhiteSpace` and
`LineTerminator` code points from both ends.  The recognized code points. -/
def jsWhitespace (c : Char) : Bool :=
  c = ' ' ∨ c = '\t' ∨ c = '\n' ∨ c = '\r' ∨ c = '\x0b' ∨ c = '\x0c' ∨
  c = '\u00A0' ∨ c = '\u1680' ∨ ('\u2000' ≤ c ∧ c ≤ '\u200A') ∨
  c = '\u2028' ∨ c = '\u2029' ∨ c = '\u202F' ∨ c = '\u205F' ∨
  c = '\u3000' ∨ c = '\uFEFF'

/-- `String.prototype.trim`, modelled on the string's character list. -/
def jsTrim (s : String) : String :=
  ⟨((s.data.dropWhile jsWhitespace).reverse.dropWhile jsWhitespace).reverse⟩

/-- How the `fetch` of a form POST turned out: the promise rejected, or a
response arrived with a success flag (`res.ok`) and, when the server sent a
structured validation body, its detail.  `app.js` never reads the response
body of a failed POST, so the detail is carried here only to let theorems
talk about it. -/
inductive PostOutcome where
  | networkError (msg : String)
  | response (ok : Bool) (validationDetail : Option String)
deriving Repr, DecidableEq

/-- Raw values of the employee form fields (`emp-name`, `emp-role`,
`emp-phone`, `emp-rate`) at submit time. -/
structure EmployeeFormInput where
  name : String
  role : String
  phone : String
  rate : String
deriving Repr, DecidableEq

/-- The JSON payload built at `app.js:52-58`.  `hourly_rate` is kept as the
raw field string (the `Number(...)` coercion does not affect any control
flow in scope). -/
structure EmployeePayload where
  full_name : String
  role : String
  phone : Option String
  hourly_rate : Option String
  is_active : Bool
deriving Repr, DecidableEq

/-- Observable effects of one employee-form submit: whether a POST was
issued, whether `form.reset()` ran, and the alert text, if any. -/
structure SubmitEffects where
  requestSent : Bool
  formReset : Bool
  alertMsg : Option String
deriving Repr, DecidableEq

/-- The submit handler installed by `setupEmployeeForm` (`app.js:50-75`).
`payload.full_name`/`payload.role` are trimmed field values; the pre-flight
check `if (!payload.full_name || !payload.role)` tests string truthiness,
i.e. non-emptiness, and returns before any `fetch`.  A non-success response
always alerts the fixed message `"Çalışan eklenemedi"`; the response body is
never read. -/
def employeeFormSubmit (input : EmployeeFormInput) (outcome : PostOutcome) :
    SubmitEffects :=
  let payload : EmployeePayload :=
    { full_name := jsTrim input.name
      role := jsTrim input.role
      phone := if jsTrim input.phone = "" then none else some (jsTrim input.phone)
      hourly_rate := if input.rate = "" then none else some input.rate
      is_active := true }
  if payload.full_name = "" ∨ payload.role = "" then
    { requestSent := false, formReset := false,
      alertMsg := some "Ad soyad ve rol zorunludur." }
  else
    match outcome with
    | .networkError m =>
        { requestSent := true, formReset := false, alertMsg := some m }
    | .response ok _ =>
        if ok then { requestSent := true, formReset := true, alertMsg := none }
        else
          { requestSent := true, formReset := false,
            alertMsg := some "Çalışan eklenemedi" }

/-- Raw values of the shift form fields (`shift-date`, `shift-start`,
`shift-end`, `shift-position`, `shift-employee`) at submit time. -/
structure ShiftFormInput where
  dateVal : String
  start : String
  endv : String
  position : String
  empId : String
deriving Repr, DecidableEq

/-- The submit handler installed by `setupShiftForm` (`app.js:80-115`),
together with its effect on the page state.  Pre-flight
(`if (!dateVal || !start || !end || !position)`) alerts and returns before
any `fetch`.  On `!res.ok` or a rejected `fetch` the handler alerts and
leaves the state untouched — no `form.reset()`, no re-render.  On success it
resets the form, fixes the `week-date` field (`weekDate = field || dateVal`)
and runs `loadWeekSchedule(weekDate)`, whose own outcome is `weekOutcome`. -/
def shiftFormSubmit (st : AppState) (input : ShiftFormInput)
    (outcome : PostOutcome) (weekOutcome : WeekFetchOutcome) :
    AppState × SubmitEffects :=
  if input.dateVal = "" ∨ input.start = "" ∨ input.endv = "" ∨
      jsTrim input.position = "" then
    (st, { requestSent := false, formReset := false,
           alertMsg := some "Tarih, saatler ve pozisyon zorunludur." })
  else
    match outcome with
    | .networkError m =>
        (st, { requestSent := true, formReset := false, alertMsg := some m })
    | .response ok _ =>
        if ok then
          let weekDate := if st.weekDateField = "" then input.dateVal
                          else st.weekDateField
          let st' : AppState := { st with weekDateField := weekDate }
          let (st'', alert) := completeLoadWeek st' weekOutcome
          (st'', { requestSent := true, formReset := true, alertMsg := alert })
        else
          (st, { requestSent := true, formReset := false,
                 alertMsg := some "Vardiya kaydedilemedi" })

/-! ### Concrete inputs used by witnesses and counterexamples -/

/-- Employee of the worked example in the spec (§8). -/
def emAda : Employee := ⟨1, "Ada", "Cashier"⟩

/-- An employee whose `full_name` is a canonical array-index string. -/
def emNumeric : Employee := ⟨2, "7", "Stock"⟩

/-- Assigned shift of the worked example. -/
def shiftAda : Shift := ⟨1, "2024-01-02", "09:00", "17:00", "Cashier", .emp emAda⟩

/-- Open (`employee: null`) shift of the worked example. -/
def shiftOpen : Shift := ⟨2, "2024-01-01", "08:00", "12:00", "Stock", .jsNull⟩

/-- A shift whose `employee` field holds the falsy value `0`. -/
def shiftZero : Shift := ⟨4, "2024-01-03", "10:00", "14:00", "Guard", .jsZero⟩

/-- A shift assigned to the numerically named employee. -/
def shiftNumeric : Shift := ⟨3, "2024-01-02", "10:00", "18:00", "Stock", .emp emNumeric⟩

/-- The spec's worked example input (§8). -/
def exShifts : List Shift := [shiftAda, shiftOpen]

/-- Input whose second employee key is the array-index string `"7"`. -/
def exNumericShifts : List Shift := [shiftAda, shiftNumeric]

/-- Input containing a `0`-valued (falsy) `employee` field. -/
def exFalsyShifts : List Shift := [shiftAda, shiftZero]

/-- An employee whose `full_name` is an `Object.prototype` member name. -/
def emProto : Employee := ⟨3, "toString", "Cashier"⟩

/-- A shift assigned to the prototype-named employee. -/
def shiftProto : Shift := ⟨5, "2024-01-01", "09:00", "17:00", "Cashier", .emp emProto⟩

/-- Input whose only employee key is the `Object.prototype` member name
`"toString"`. -/
def exProtoShifts : List Shift := [shiftProto]

/-- A fully filled employee form. -/
def exEmployeeInput : EmployeeFormInput := ⟨"Ada Lovelace", "Cashier", "", ""⟩

/-- An employee form with an empty `emp-name` field. -/
def exEmployeeInputNoName : EmployeeFormInput := ⟨"", "Cashier", "", ""⟩

/-- A fully filled shift form. -/
def exShiftInput : ShiftFormInput := ⟨"2024-01-02", "09:00", "17:00", "Cashier", "1"⟩

/-- A page state holding a previously rendered week. -/
def exState : AppState := ⟨"2024-01-02", some (renderWeekTable exShifts)⟩

/-! ### Lemmas: the grouping loop partitions its input -/

theorem bucketsShifts_innerInsert (b : Buckets) (d : String) (s : Shift) :
    List.Perm (bucketsShifts (innerInsert b d s)) (bucketsShifts b ++ [s]) := by
  induction b with
  | nil => simp [innerInsert, bucketsShifts]
  | cons hd rest ih =>
      obtain ⟨d', l⟩ := hd
      by_cases h : d' = d
      · simp only [innerInsert, if_pos h, bucketsShifts]
        rw [List.append_assoc, List.append_assoc]
        exact List.Perm.append_left l List.perm_append_comm
      · simp only [innerInsert, if_neg h, bucketsShifts]
        rw [List.append_assoc]
        exact List.Perm.append_left l ih

theorem rowsShifts_outerInsert (m : Rows) (k d : String) (s : Shift) :
    List.Perm (rowsShifts (outerInsert m k d s)) (rowsShifts m ++ [s]) := by
  induction m with
  | nil => simp [outerInsert, rowsShifts, innerInsert, bucketsShifts]
  | cons hd rest ih =>
      obtain ⟨k', b⟩ := hd
      by_cases h : k' = k
      · simp only [outerInsert, if_pos h, rowsShifts]
        refine ((bucketsShifts_innerInsert b d s).append_right _).trans ?_
        rw [List.append_assoc, List.append_assoc]
        exact List.Perm.append_left _ List.perm_append_comm
      · simp only [outerInsert, if_neg h, rowsShifts]
        rw [List.append_assoc]
        exact List.Perm.append_left _ ih

theorem rowsShifts_foldl_agg (l : List Shift) : ∀ m : Rows,
    List.Perm
      (rowsShifts (l.foldl (fun m s => outerInsert m (empKeyOf s.employee) s.date s) m))
      (rowsShifts m ++ l) := by
  induction l with
  | nil => intro m; simp
  | cons s l ih =>
      intro m
      simp only [List.foldl_cons]
      refine (ih _).trans ?_
      refine ((rowsShifts_outerInsert m _ _ s).append_right l).trans ?_
      rw [List.append_assoc]
      simp

theorem rowsShifts_aggRows (shifts : List Shift) :
    List.Perm (rowsShifts (aggRows shifts)) shifts := by
  simpa [rowsShifts] using rowsShifts_foldl_agg shifts []

theorem bucketsShifts_length (b : Buckets) :
    (bucketsShifts b).length = (b.map (fun p => p.2.length)).sum := by
  induction b with
  | nil => simp [bucketsShifts]
  | cons hd rest ih => simp [bucketsShifts, ih]

theorem rowsShifts_length (m : Rows) :
    (rowsShifts m).length =
      (m.map (fun r => (r.2.map (fun p => p.2.length)).sum)).sum := by
  induction m with
  | nil => simp [rowsShifts]
  | cons hd rest ih => simp [rowsShifts, ih, bucketsShifts_length]

/-! ### Lemmas: bucket reads after the grouping loop -/

theorem innerLookup_innerInsert (b : Buckets) (d : String) (s : Shift) (d' : String) :
    innerLookup (innerInsert b d s) d' =
      if d = d' then innerLookup b d' ++ [s] else innerLookup b d' := by
  induction b with
  | nil =>
      by_cases h : d = d' <;> simp [innerInsert, innerLookup, h]
  | cons hd rest ih =>
      obtain ⟨e, l⟩ := hd
      by_cases h1 : e = d
      · subst h1
        by_cases h2 : e = d'
        · subst h2
          simp [innerInsert, innerLookup]
        · simp [innerInsert, innerLookup, h2]
      · by_cases h2 : e = d'
        · subst h2
          have hne : ¬ d = e := fun hc => h1 hc.symm
          simp [innerInsert, innerLookup, h1, hne]
        · simp [innerInsert, innerLookup, h1, h2, ih]

theorem bucketOf_outerInsert (m : Rows) (k d : String) (s : Shift) (k' d' : String) :
    bucketOf (outerInsert m k d s) k' d' =
      if k = k' ∧ d = d' then bucketOf m k' d' ++ [s] else bucketOf m k' d' := by
  induction m with
  | nil =>
      by_cases h1 : k = k'
      · subst h1
        by_cases h2 : d = d' <;>
          simp [outerInsert, bucketOf, innerInsert, innerLookup, h2]
      · simp [outerInsert, bucketOf, h1]
  | cons hd rest ih =>
      obtain ⟨e, b⟩ := hd
      simp only [outerInsert]
      by_cases h1 : e = k
      · rw [if_pos h1]
        by_cases h2 : e = k'
        · simp only [bucketOf, if_pos h2]
          rw [innerLookup_innerInsert]
          have hkk : k = k' := h1 ▸ h2
          by_cases h3 : d = d'
          · rw [if_pos h3, if_pos ⟨hkk, h3⟩]
          · rw [if_neg h3, if_neg (fun hc => h3 hc.2)]
        · simp only [bucketOf, if_neg h2]
          rw [if_neg (fun hc => h2 (h1.trans hc.1))]
      · rw [if_neg h1]
        by_cases h2 : e = k'
        · simp only [bucketOf, if_pos h2]
          rw [if_neg (fun hc => h1 (h2.trans hc.1.symm))]
        · simp only [bucketOf, if_neg h2]
          exact ih

theorem bucketOf_foldl_agg (l : List Shift) (k d : String) : ∀ m : Rows,
    bucketOf (l.foldl (fun m s => outerInsert m (empKeyOf s.employee) s.date s) m) k d =
      bucketOf m k d ++
        l.filter (fun s => decide (empKeyOf s.employee = k ∧ s.date = d)) := by
  induction l with
  | nil => intro m; simp
  | cons s l ih =>
      intro m
      simp only [List.foldl_cons]
      rw [ih, bucketOf_outerInsert]
      by_cases h : empKeyOf s.employee = k ∧ s.date = d
      · rw [if_pos ⟨h.1, h.2⟩, List.filter_cons_of_pos (by simpa using h),
          List.append_assoc]
        simp
      · rw [if_neg (fun hc => h ⟨hc.1, hc.2⟩),
          List.filter_cons_of_neg (by simpa using h)]

theorem bucketOf_aggRows (shifts : List Shift) (k d : String) :
    bucketOf (aggRows shifts) k d =
      shifts.filter (fun s => decide (empKeyOf s.employee = k ∧ s.date = d)) := by
  simpa [bucketOf] using bucketOf_foldl_agg shifts k d []

theorem mem_bucketOf_self (shifts : List Shift) (s : Shift) (hs : s ∈ shifts) :
    s ∈ bucketOf (aggRows shifts) (empKeyOf s.employee) s.date := by
  rw [bucketOf_aggRows]
  exact List.mem_filter.mpr ⟨hs, by simp⟩

/-! ### Lemmas: row keys, date set, and `Object.entries` order -/

theorem mem_setAdd (l : List String) (d x : String) :
    x ∈ setAdd l d ↔ x ∈ l ∨ x = d := by
  unfold setAdd
  split
  · constructor
    · exact Or.inl
    · rintro (hx | rfl)
      · exact hx
      · assumption
  · simp

theorem nodup_setAdd (l : List String) (d : String) (h : l.Nodup) :
    (setAdd l d).Nodup := by
  unfold setAdd
  split
  · exact h
  · simp only [List.nodup_append, List.nodup_cons, List.nodup_nil]
    exact ⟨h, by simp, by simpa using fun hd => ‹d ∉ l› hd⟩

theorem map_fst_outerInsert (m : Rows) (k d : String) (s : Shift) :
    (outerInsert m k d s).map Prod.fst = setAdd (m.map Prod.fst) k := by
  induction m with
  | nil => simp [outerInsert, setAdd]
  | cons hd rest ih =>
      obtain ⟨e, b⟩ := hd
      simp only [outerInsert]
      by_cases h : e = k
      · rw [if_pos h]
        simp [setAdd, h]
      · rw [if_neg h]
        simp only [List.map_cons, ih, setAdd]
        have : (k ∈ e :: rest.map Prod.fst) ↔ k ∈ rest.map Prod.fst := by
          rw [List.mem_cons]
          constructor
          · rintro (he | hm)
            · exact absurd he.symm h
            · exact hm
          · exact Or.inr
        by_cases hk : k ∈ rest.map Prod.fst
        · rw [if_pos hk, if_pos (this.mpr hk)]
        · rw [if_neg hk, if_neg (fun hc => hk (this.mp hc))]
          simp

theorem map_fst_foldl_agg (l : List Shift) : ∀ m : Rows,
    ((l.foldl (fun m s => outerInsert m (empKeyOf s.employee) s.date s) m).map
        Prod.fst) =
      l.foldl (fun acc s => setAdd acc (empKeyOf s.employee)) (m.map Prod.fst) := by
  induction l with
  | nil => intro m; simp
  | cons s l ih =>
      intro m
      simp only [List.foldl_cons]
      rw [ih, map_fst_outerInsert]

theorem map_fst_aggRows (shifts : List Shift) :
    (aggRows shifts).map Prod.fst = firstSeenKeys shifts := by
  simpa using map_fst_foldl_agg shifts []

theorem mem_foldl_setAdd (f : Shift → String) (l : List Shift) :
    ∀ (acc : List String) (x : String),
      x ∈ l.foldl (fun a s => setAdd a (f s)) acc ↔ x ∈ acc ∨ x ∈ l.map f := by
  induction l with
  | nil => intro acc x; simp
  | cons s l ih =>
      intro acc x
      simp only [List.foldl_cons, List.map_cons, List.mem_cons]
      rw [ih, mem_setAdd]
      tauto

theorem nodup_foldl_setAdd (f : Shift → String) (l : List Shift) :
    ∀ acc : List String, acc.Nodup →
      (l.foldl (fun a s => setAdd a (f s)) acc).Nodup := by
  induction l with
  | nil => intro acc h; simpa using h
  | cons s l ih =>
      intro acc h
      simp only [List.foldl_cons]
      exact ih _ (nodup_setAdd _ _ h)

theorem nodup_firstSeenKeys (shifts : List Shift) : (firstSeenKeys shifts).Nodup :=
  nodup_foldl_setAdd _ shifts [] List.nodup_nil

theorem mem_firstSeenKeys (shifts : List Shift) (x : String) :
    x ∈ firstSeenKeys shifts ↔ x ∈ shifts.map (fun s => empKeyOf s.employee) := by
  rw [firstSeenKeys, mem_foldl_setAdd]
  simp

theorem jsEntries_perm (m : Rows) : List.Perm (jsEntries m) m := by
  unfold jsEntries
  refine ((List.perm_insertionSort _ _).append_right _).trans ?_
  exact List.filter_append_perm _ m

theorem jsEntries_eq_self (m : Rows) (H : ∀ p ∈ m, isArrayIndexKey p.1 = false) :
    jsEntries m = m := by
  unfold jsEntries
  have h1 : m.filter (fun p => isArrayIndexKey p.1) = [] :=
    List.filter_eq_nil_iff.mpr (fun p hp => by simp [H p hp])
  have h2 : m.filter (fun p => !isArrayIndexKey p.1) = m :=
    List.filter_eq_self.mpr (fun p hp => by simp [H p hp])
  rw [h1, h2]
  rfl

/-! ### Lemmas: on prototype-free keys the loop is the association-list insertion -/

theorem jsGroupStep_tame (m : Rows) (s : Shift)
    (hk : protoProperty (empKeyOf s.employee) = false)
    (hd : protoProperty s.date = false) :
    jsGroupStep m s = some (outerInsert m (empKeyOf s.employee) s.date s) := by
  unfold jsGroupStep
  by_cases hmem : (m.map Prod.fst).contains (empKeyOf s.employee) <;>
    simp [hmem, hk, hd]

theorem jsGroupRowsAux_tame : ∀ (l : List Shift) (m : Rows),
    (∀ s ∈ l, protoProperty (empKeyOf s.employee) = false) →
    (∀ s ∈ l, protoProperty s.date = false) →
    jsGroupRowsAux m l =
      some (l.foldl (fun r s => outerInsert r (empKeyOf s.employee) s.date s) m) := by
  intro l
  induction l with
  | nil => intro m _ _; rfl
  | cons s l ih =>
      intro m He Hd
      have hstep := jsGroupStep_tame m s (He s (List.mem_cons_self s l))
        (Hd s (List.mem_cons_self s l))
      simp only [jsGroupRowsAux, hstep, List.foldl_cons]
      exact ih _ (fun x hx => He x (List.mem_cons_of_mem s hx))
        (fun x hx => Hd x (List.mem_cons_of_mem s hx))

theorem jsGroupRows_tame (shifts : List Shift)
    (He : ∀ s ∈ shifts, protoProperty (empKeyOf s.employee) = false)
    (Hd : ∀ s ∈ shifts, protoProperty s.date = false) :
    jsGroupRows shifts = some (aggRows shifts) :=
  jsGroupRowsAux_tame shifts [] He Hd

/-! ### Claim theorems -/

/-- C1 (counterexample): a single shift whose employee is named
`"toString"` is dropped — the guard at `app.js:155` reads the truthy
inherited `Object.prototype.toString`, no own row is created, and the write
lands on the inherited function, so the grouping yields zero own rows and
the bucket lengths sum to `0 ≠ 1`. -/
theorem agg_partition_counterexample :
    (jsGroupRows exProtoShifts).map
        (fun m => (m.map (fun r => (r.2.map (fun b => b.2.length)).sum)).sum) =
      some 0 ∧
    exProtoShifts.length = 1 := by decide

/-- C1 (amended): provided no employee key and no shift date names an
`Object.prototype` member, the grouping loop completes as the plain
association-list insertion, every input shift lands in exactly one
(employee key, date) bucket — the shifts stored across all buckets are a
permutation of the input list — and the sum of the lengths of all buckets
equals the length of the input list. -/
theorem agg_partitions_tame (shifts : List Shift)
    (He : ∀ s ∈ shifts, protoProperty (empKeyOf s.employee) = false)
    (Hd : ∀ s ∈ shifts, protoProperty s.date = false) :
    jsGroupRows shifts = some (aggRows shifts) ∧
    List.Perm (rowsShifts (aggRows shifts)) shifts ∧
    ((aggRows shifts).map (fun r => (r.2.map (fun b => b.2.length)).sum)).sum =
      shifts.length :=
  ⟨jsGroupRows_tame shifts He Hd, rowsShifts_aggRows shifts,
   by rw [← rowsShifts_length]; exact (rowsShifts_aggRows shifts).length_eq⟩

/-- C1 (witness): on the spec's worked example — proto-free keys and
dates — the loop completes and partitions both input shifts. -/
theorem agg_partitions_tame_witness :
    jsGroupRows exShifts = some (aggRows exShifts) ∧
    List.Perm (rowsShifts (aggRows exShifts)) exShifts ∧
    ((aggRows exShifts).map (fun r => (r.2.map (fun b => b.2.length)).sum)).sum =
      exShifts.length :=
  agg_partitions_tame exShifts (by decide) (by decide)

/-- C2: the column dates produced by the aggregation are sorted ascending in
the lexicographic order on strings, contain no duplicates, and a date occurs
among them exactly when it occurs as the `date` of some input shift — i.e.
they are the distinct input dates, sorted ascending, and nothing else. -/
theorem columnDates_sorted_distinct (shifts : List Shift) :
    List.Sorted (· ≤ ·) (columnDates shifts) ∧
    (columnDates shifts).Nodup ∧
    ∀ d, d ∈ columnDates shifts ↔ d ∈ shifts.map Shift.date := by
  refine ⟨List.sorted_insertionSort _ _, ?_, ?_⟩
  · exact ((List.perm_insertionSort _ _).nodup_iff).mpr
      (nodup_foldl_setAdd Shift.date shifts [] List.nodup_nil)
  · intro d
    exact ((List.perm_insertionSort _ _).mem_iff).trans
      ((mem_foldl_setAdd Shift.date shifts [] d).trans (by simp))

/-- C6: aggregating the empty shift list yields an empty week view — zero
rows and zero columns — `renderWeekTable` renders the explicit "no shifts"
message, and completing a week load whose response is the empty list
publishes that message with no error alert. -/
theorem emptyWeek_no_shifts (st : AppState) :
    renderWeekTable [] = .message "Bu hafta için kayıtlı vardiya yok." ∧
    aggRows [] = [] ∧ columnDates [] = [] ∧
    (completeLoadWeek st (.ok [])).1.view =
      some (.message "Bu hafta için kayıtlı vardiya yok.") ∧
    (completeLoadWeek st (.ok [])).2 = none :=
  ⟨rfl, rfl, rfl, rfl, rfl⟩

/-- C9: `loadWeekSchedule` completions carry no request token, cancellation,
or fencing — each one unconditionally overwrites the published view, so
after two loads resolve, in either arrival order and for any two responses
(hence regardless of which request was issued first), the published view is
the one built from the response that arrived last. -/
theorem lastResponseWins (st : AppState) (r1 r2 : List Shift) :
    (completeLoadWeek (completeLoadWeek st (.ok r1)).1 (.ok r2)).1.view =
      some (renderWeekTable r2) ∧
    (completeLoadWeek (completeLoadWeek st (.ok r2)).1 (.ok r1)).1.view =
      some (renderWeekTable r1) :=
  ⟨rfl, rfl⟩

/-- When no employee key of the input is a canonical array-index string,
`Object.entries` keeps insertion order on the association model, so the
keys come out in first-appearance order. -/
theorem jsEntries_map_fst_no_index (shifts : List Shift)
    (H : ∀ s ∈ shifts, isArrayIndexKey (empKeyOf s.employee) = false) :
    (jsEntries (aggRows shifts)).map Prod.fst = firstSeenKeys shifts := by
  have hkeys : ∀ p ∈ aggRows shifts, isArrayIndexKey p.1 = false := by
    intro p hp
    have hmem : p.1 ∈ (aggRows shifts).map Prod.fst :=
      List.mem_map_of_mem Prod.fst hp
    rw [map_fst_aggRows, mem_firstSeenKeys] at hmem
    obtain ⟨s, hs, hkey⟩ := List.mem_map.mp hmem
    rw [← hkey]
    exact H s hs
  rw [jsEntries_eq_self _ hkeys, map_fst_aggRows]

/-- C3 (amended): provided no employee key of the input is a canonical
array-index string or an `Object.prototype` member name and no date names
an `Object.prototype` member, the grouping loop completes and the row order
of the rendered table (`Object.entries` enumeration of the grouping object)
equals the order of first appearance of each employee key in the input
list. -/
theorem rowOrder_firstSeen_tame (shifts : List Shift)
    (Hi : ∀ s ∈ shifts, isArrayIndexKey (empKeyOf s.employee) = false)
    (He : ∀ s ∈ shifts, protoProperty (empKeyOf s.employee) = false)
    (Hd : ∀ s ∈ shifts, protoProperty s.date = false) :
    (jsGroupRows shifts).map (fun m => (jsEntries m).map Prod.fst) =
      some (firstSeenKeys shifts) := by
  rw [jsGroupRows_tame shifts He Hd]
  exact congrArg some (jsEntries_map_fst_no_index shifts Hi)

/-- C3 (witness): on the spec's worked example, whose keys `"Ada"` and
`"(Açık shift)"` are neither array-index strings nor prototype names, the
row order is the first-appearance order. -/
theorem rowOrder_firstSeen_tame_witness :
    (jsGroupRows exShifts).map (fun m => (jsEntries m).map Prod.fst) =
      some (firstSeenKeys exShifts) :=
  rowOrder_firstSeen_tame exShifts (by decide) (by decide) (by decide)

/-- C3 (counterexample): with employee names `"Ada"` then `"7"` (a canonical
array-index string), `Object.entries` enumerates `"7"` first, so the row
order is `["7", "Ada"]` — not the first-appearance order `["Ada", "7"]`. -/
theorem rowOrder_counterexample :
    (jsEntries (aggRows exNumericShifts)).map Prod.fst ≠
      firstSeenKeys exNumericShifts := by decide

/-- C5: every shift whose `employee` field is null or absent (`undefined`)
lands in a bucket of the single open-shift sentinel row, and the rendered
table never contains more than one row keyed by that sentinel. -/
theorem openShifts_single_row (shifts : List Shift) :
    (∀ s ∈ shifts,
        s.employee = EmpField.jsNull ∨ s.employee = EmpField.jsUndefined →
        s ∈ bucketOf (aggRows shifts) openShiftKey s.date) ∧
    ((jsEntries (aggRows shifts)).map Prod.fst).count openShiftKey ≤ 1 := by
  constructor
  · intro s hs hemp
    have hkey : empKeyOf s.employee = openShiftKey := by
      rcases hemp with h | h <;> rw [h] <;> rfl
    rw [← hkey]
    exact mem_bucketOf_self shifts s hs
  · have hperm := (jsEntries_perm (aggRows shifts)).map Prod.fst
    rw [hperm.count_eq, map_fst_aggRows]
    exact List.nodup_iff_count_le_one.mp (nodup_firstSeenKeys shifts) _

/-- C5 (witness): on the spec's worked example, the null-employee shift is
in the sentinel bucket for its date. -/
theorem openShifts_single_row_witness :
    shiftOpen ∈ bucketOf (aggRows exShifts) openShiftKey shiftOpen.date :=
  (openShifts_single_row exShifts).1 shiftOpen (by decide) (Or.inl rfl)

/-- C10 (counterexample): the shift assigned to the employee object named
`"toString"` has a truthy `employee` field, yet the grouping creates no own
row at all — the shift is not bucketed under its `full_name` row key. -/
theorem truthiness_counterexample :
    jsTruthy shiftProto.employee = true ∧
    (jsGroupRows exProtoShifts).map
        (fun m => decide (shiftProto ∈ bucketOf m emProto.full_name shiftProto.date)) =
      some false := by decide

/-- C10 (amended): the open-shift classification is decided by JS
truthiness of the `employee` field — `undefined`, `null`, `false`, `0` and
`""` are all falsy under `ToBoolean` — and, provided no employee key and no
date of the input names an `Object.prototype` member, the grouping loop
completes, each falsy-employee shift is bucketed under the open-shift
sentinel, and a truthy employee object contributes its `full_name` as the
row key of the shift's bucket. -/
theorem truthiness_decides_row_tame (shifts : List Shift)
    (He : ∀ s ∈ shifts, protoProperty (empKeyOf s.employee) = false)
    (Hd : ∀ s ∈ shifts, protoProperty s.date = false) :
    (jsTruthy .jsUndefined = false ∧ jsTruthy .jsNull = false ∧
     jsTruthy .jsFalse = false ∧ jsTruthy .jsZero = false ∧
     jsTruthy .jsEmptyString = false ∧ ∀ e, jsTruthy (.emp e) = true) ∧
    jsGroupRows shifts = some (aggRows shifts) ∧
    ∀ s ∈ shifts,
      (jsTruthy s.employee = false →
        s ∈ bucketOf (aggRows shifts) openShiftKey s.date) ∧
      (∀ e, s.employee = EmpField.emp e →
        s ∈ bucketOf (aggRows shifts) e.full_name s.date) := by
  refine ⟨⟨rfl, rfl, rfl, rfl, rfl, fun _ => rfl⟩, jsGroupRows_tame shifts He Hd, ?_⟩
  intro s hs
  constructor
  · intro hfalse
    have hkey : empKeyOf s.employee = openShiftKey := by
      cases hse : s.employee
      case emp e =>
        rw [hse] at hfalse
        exact absurd hfalse (by simp [jsTruthy])
      all_goals rfl
    rw [← hkey]
    exact mem_bucketOf_self shifts s hs
  · intro e he
    have hkey : empKeyOf s.employee = e.full_name := by rw [he]; rfl
    rw [← hkey]
    exact mem_bucketOf_self shifts s hs

/-- C10 (witness): on a proto-free input, the shift whose `employee` field
holds the falsy value `0` lands in the sentinel bucket for its date. -/
theorem truthiness_decides_row_tame_witness :
    shiftZero ∈ bucketOf (aggRows exFalsyShifts) openShiftKey shiftZero.date :=
  (((truthiness_decides_row_tame exFalsyShifts (by decide) (by decide)).2.2)
      shiftZero (by decide)).1 rfl

/-- C4 (counterexample): a failed create-employee request whose response
carries server-side validation detail is not surfaced as-is — the alert is
the fixed generic message, not the detail. -/
theorem validationDetail_counterexample :
    (employeeFormSubmit exEmployeeInput
        (.response false (some "full_name: already exists"))).alertMsg =
      some "Çalışan eklenemedi" ∧
    (employeeFormSubmit exEmployeeInput
        (.response false (some "full_name: already exists"))).alertMsg ≠
      some "full_name: already exists" := by
  constructor
  · rfl
  · decide

/-- C4 (amended): when a create-employee or create-shift request that passed
the pre-flight check fails with a non-success HTTP status, the reported
message is always the fixed generic operation-specific message; any
server-side validation detail in the response is never read or surfaced. -/
theorem genericMessage_on_failure
    (einput : EmployeeFormInput) (sinput : ShiftFormInput) (st : AppState)
    (w : WeekFetchOutcome) (detail : Option String)
    (he : ¬ (jsTrim einput.name = "" ∨ jsTrim einput.role = ""))
    (hs : ¬ (sinput.dateVal = "" ∨ sinput.start = "" ∨ sinput.endv = "" ∨
        jsTrim sinput.position = "")) :
    (employeeFormSubmit einput (.response false detail)).alertMsg =
      some "Çalışan eklenemedi" ∧
    (shiftFormSubmit st sinput (.response false detail) w).2.alertMsg =
      some "Vardiya kaydedilemedi" := by
  constructor
  · simp [employeeFormSubmit, he]
  · simp [shiftFormSubmit, hs]

/-- C4 (witness): on filled forms with a detail-carrying failure response,
both handlers alert their generic messages. -/
theorem genericMessage_on_failure_witness :
    (employeeFormSubmit exEmployeeInput (.response false (some "detail"))).alertMsg =
      some "Çalışan eklenemedi" ∧
    (shiftFormSubmit exState exShiftInput (.response false (some "detail"))
        (.ok [])).2.alertMsg =
      some "Vardiya kaydedilemedi" :=
  genericMessage_on_failure exEmployeeInput exShiftInput exState (.ok [])
    (some "detail") (by decide) (by decide)

/-- C7: submitting an employee draft whose trimmed `full_name` or `role` is
empty never reaches the network layer — no request is sent, the form is not
reset, and the pre-flight message is alerted, whatever the network would
have answered. -/
theorem employeePreflight_blocks (input : EmployeeFormInput)
    (outcome : PostOutcome)
    (h : jsTrim input.name = "" ∨ jsTrim input.role = "") :
    (employeeFormSubmit input outcome).requestSent = false ∧
    (employeeFormSubmit input outcome).formReset = false ∧
    (employeeFormSubmit input outcome).alertMsg =
      some "Ad soyad ve rol zorunludur." := by
  rcases h with h | h <;> simp [employeeFormSubmit, h]

/-- C7 (witness): an employee form with an empty name field sends no
request. -/
theorem employeePreflight_blocks_witness :
    (employeeFormSubmit exEmployeeInputNoName (.response true none)).requestSent =
      false ∧
    (employeeFormSubmit exEmployeeInputNoName (.response true none)).formReset =
      false ∧
    (employeeFormSubmit exEmployeeInputNoName (.response true none)).alertMsg =
      some "Ad soyad ve rol zorunludur." :=
  employeePreflight_blocks exEmployeeInputNoName (.response true none)
    (Or.inl rfl)

/-- C8: a failed shift submission — rejected `fetch` or non-success HTTP
status — leaves the page state, including the previously rendered week
view, unchanged; the form is not reset, and only the error alert is
produced. -/
theorem failedShiftSubmit_frame (st : AppState) (input : ShiftFormInput)
    (w : WeekFetchOutcome)
    (hpre : ¬ (input.dateVal = "" ∨ input.start = "" ∨ input.endv = "" ∨
        jsTrim input.position = "")) :
    (∀ m, (shiftFormSubmit st input (.networkError m) w).1 = st ∧
       (shiftFormSubmit st input (.networkError m) w).2.requestSent = true ∧
       (shiftFormSubmit st input (.networkError m) w).2.formReset = false ∧
       (shiftFormSubmit st input (.networkError m) w).2.alertMsg = some m) ∧
    (∀ detail, (shiftFormSubmit st input (.response false detail) w).1 = st ∧
       (shiftFormSubmit st input (.response false detail) w).2.requestSent =
         true ∧
       (shiftFormSubmit st input (.response false detail) w).2.formReset =
         false ∧
       (shiftFormSubmit st input (.response false detail) w).2.alertMsg =
         some "Vardiya kaydedilemedi") := by
  constructor <;> intro x <;> simp [shiftFormSubmit, hpre]

/-- C8 (witness): a network-failed shift submission over a previously
rendered week leaves the state untouched and the form intact, alerting the
browser's error message. -/
theorem failedShiftSubmit_frame_witness :
    (shiftFormSubmit exState exShiftInput (.networkError "Failed to fetch")
        (.ok [])).1 = exState ∧
    (shiftFormSubmit exState exShiftInput (.networkError "Failed to fetch")
        (.ok [])).2.formReset = false ∧
    (shiftFormSubmit exState exShiftInput (.networkError "Failed to fetch")
        (.ok [])).2.alertMsg = some "Failed to fetch" :=
  ⟨((failedShiftSubmit_frame exState exShiftInput (.ok []) (by decide)).1
      "Failed to fetch").1,
   ((failedShiftSubmit_frame exState exShiftInput (.ok []) (by decide)).1
      "Failed to fetch").2.2.1,
   ((failedShiftSubmit_frame exState exShiftInput (.ok []) (by decide)).1
      "Failed to fetch").2.2.2⟩

end ShiftWeb
